import Mathlib

/-!
Verification of the `ask` path-query library (github.com/lukaszraczylo/ask).

The repository contains the current optimised implementation (custom
`tokenizePath`, a `sync.Map` token cache, a bracket-aware walk in `For`)
together with the original fork source `ask.go` (regexp tokenizer) and an
intermediate variant.  The test suite of the repository exercises the
optimised implementation, so namespace `Ask` below embeds that variant;
namespace `AskOrig` embeds the one function of `ask.go` that a claim is
specifically about (`Uint`, which carries an explicit overflow clamp the
optimised variant dropped).

Modelling conventions:
  - Go dynamic values (`interface{}` / `any`) are the inductive `Ask.GoVal`.
    A nil interface is `vnull`.  Concrete container shapes that the source
    dispatches on get their own constructors.
  - Go maps are association lists with distinct keys; `m[k]` on a missing
    key yields the zero value of the element type, exactly as in Go.
  - Go floating point values are modelled as rationals.  Conversion of a
    float to an integer type truncates toward zero; when the value is out
    of range of the target type the Go specification leaves the result
    implementation-defined, which we model as saturation (the behaviour of
    Go on arm64, the platform of the benchmarks in the repository README).
  - A Go runtime panic is modelled as `Except.error` carrying the panic
    message; ordinary results are `Except.ok`.
-/

/-- Truncation of a rational toward zero, the rounding used by every Go
conversion from a floating point type to an integer type. -/
def truncQ (q : ℚ) : Int :=
  if 0 ≤ q then ⌊q⌋ else ⌈q⌉

/-- Go conversion `int64(f)` for a float value `f`.  In range this is
truncation toward zero; out of range the result is implementation-defined
per the Go specification and is modelled as saturation. -/
def goFloatToInt64 (q : ℚ) : Int :=
  if truncQ q < -(2 ^ 63) then -(2 ^ 63)
  else if 2 ^ 63 - 1 < truncQ q then 2 ^ 63 - 1
  else truncQ q

/-- Go conversion `uint64(f)` for a float value `f`.  In range this is
truncation toward zero; out of range the result is implementation-defined
per the Go specification and is modelled as saturation. -/
def goFloatToUint64 (q : ℚ) : Nat :=
  if truncQ q < 0 then 0
  else if 2 ^ 64 - 1 < truncQ q then 2 ^ 64 - 1
  else (truncQ q).toNat

/-- Decimal digit test, as in `strconv` (only ASCII 0-9). -/
def isDigitCh (c : Char) : Bool :=
  48 ≤ c.toNat && c.toNat ≤ 57

/-- Value of a nonempty all-digit character run; `none` otherwise. -/
def digitsToNat (cs : List Char) : Option Nat :=
  if cs.isEmpty then none
  else if cs.all isDigitCh then
    some (cs.foldl (fun acc c => 10 * acc + (c.toNat - 48)) 0)
  else none

/-- Go `strconv.Atoi`: an optional single sign followed by at least one
decimal digit, rejected on 64-bit signed overflow. -/
def goAtoi (s : String) : Option Int :=
  match s.toList with
  | [] => none
  | c :: rest =>
    if c == '+' then
      match digitsToNat rest with
      | some n => if n ≤ 2 ^ 63 - 1 then some (n : Int) else none
      | none => none
    else if c == '-' then
      match digitsToNat rest with
      | some n => if n ≤ 2 ^ 63 then some (-(n : Int)) else none
      | none => none
    else
      match digitsToNat (c :: rest) with
      | some n => if n ≤ 2 ^ 63 - 1 then some (n : Int) else none
      | none => none

/-- Whitespace predicate of Go `unicode.IsSpace`, used by
`strings.TrimSpace`. -/
def isGoSpace (c : Char) : Bool :=
  c == ' ' || c == '\t' || c == '\n' || c.toNat == 11 || c.toNat == 12 ||
  c == '\r' || c.toNat == 0x85 || c.toNat == 0xA0 || c.toNat == 0x1680 ||
  (0x2000 ≤ c.toNat && c.toNat ≤ 0x200A) || c.toNat == 0x2028 ||
  c.toNat == 0x2029 || c.toNat == 0x202F || c.toNat == 0x205F ||
  c.toNat == 0x3000

/-- Go `strings.TrimSpace`. -/
def goTrimSpace (s : String) : String :=
  (((s.toList.dropWhile isGoSpace).reverse.dropWhile isGoSpace).reverse).asString

/-- The helper `trimSpaceASCII` of the source: strips bytes not greater
than the space character from both ends (here on characters, which agrees
with the byte-level loop on UTF-8 input). -/
def trimSpaceASCII (l : List Char) : List Char :=
  ((l.dropWhile fun c => c.toNat ≤ 32).reverse.dropWhile fun c => c.toNat ≤ 32).reverse

namespace Ask

/-- Dynamic Go values.  `vnull` is the nil interface.  The integer, unsigned
and float families keep the distinct concrete types the extractors switch
on.  Container constructors cover the shapes the accessors dispatch on:
the generic `[]any` and `map[string]any`, the special-cased
`map[string]string` and `map[string]int`, and concrete non-generic shapes
reached only through the reflect fallback (`[]int`, `[][]int`,
`map[string]bool`, `map[interface]interface`, `map[int]int`). -/
inductive GoVal where
  | vnull
  | vbool (b : Bool)
  | vint (n : Int)
  | vint8 (n : Int)
  | vint16 (n : Int)
  | vint32 (n : Int)
  | vint64 (n : Int)
  | vuint (n : Nat)
  | vuint8 (n : Nat)
  | vuint16 (n : Nat)
  | vuint32 (n : Nat)
  | vuint64 (n : Nat)
  | vfloat32 (q : ℚ)
  | vfloat64 (q : ℚ)
  | vstring (s : String)
  | vslice (xs : List GoVal)
  | vsliceInt (xs : List Int)
  | vsliceInt2 (xs : List (List Int))
  | vmapSI (m : List (String × GoVal))
  | vmapSS (m : List (String × String))
  | vmapSInt (m : List (String × Int))
  | vmapSB (m : List (String × Bool))
  | vmapII (m : List (GoVal × GoVal))
  | vmapIntInt (m : List (Int × Int))

/-- Result handle of a query; `value` is nil for a failed resolution,
mirroring `type Answer struct { value any }`. -/
structure Answer where
  value : GoVal

/-- The Go nil-interface test `v == nil`. -/
def isVNull : GoVal → Bool
  | .vnull => true
  | _ => false

/-- Equality test the Go runtime performs between a string map key and a
stored `interface{}` key of a `map[interface{}]interface{}`. -/
def keyMatches (k : GoVal) (s : String) : Bool :=
  match k with
  | .vstring t => t == s
  | _ => false

/-- The `accessMap` of the optimised implementation.  Fast-path switch for
`map[string]any`, `map[string]string` and `map[string]int` (a missing key
returns the zero value of the element type, as Go map indexing does), then
a reflect fallback: `reflect.ValueOf(source).MapIndex(reflect.ValueOf(key))`.
`MapIndex` panics when a string is not assignable to the key type of the
map, which is the case for `map[int]int`. -/
def accessMap (source : GoVal) (key : String) : Except String GoVal :=
  match source with
  | .vmapSI m => .ok ((m.lookup key).getD .vnull)
  | .vmapSS m => .ok (.vstring ((m.lookup key).getD ("")))
  | .vmapSInt m => .ok (.vint ((m.lookup key).getD 0))
  | .vmapSB m =>
    match m.lookup key with
    | some b => .ok (.vbool b)
    | none => .ok .vnull
  | .vmapII m =>
    match m.find? fun kv => keyMatches kv.1 key with
    | some kv => .ok kv.2
    | none => .ok .vnull
  | .vmapIntInt _ =>
    .error ("reflect.Value.MapIndex: value of type string is not assignable to type int")
  | _ => .ok .vnull

/-- The `accessSlice` of the optimised implementation: reflect-based
bounds-checked positional indexing over any slice or array shape. -/
def accessSlice (source : GoVal) (index : Int) : GoVal :=
  match source with
  | .vslice xs =>
    if 0 ≤ index then (xs[index.toNat]?).getD .vnull else .vnull
  | .vsliceInt xs =>
    if 0 ≤ index then
      match xs[index.toNat]? with
      | some n => .vint n
      | none => .vnull
    else .vnull
  | .vsliceInt2 xs =>
    if 0 ≤ index then
      match xs[index.toNat]? with
      | some r => .vsliceInt r
      | none => .vnull
    else .vnull
  | _ => .vnull

/-- Core loop of `tokenizePath`: characters are consumed one by one with a
token builder `buf` and an in-bracket flag.  Whitespace outside brackets is
dropped, a dot outside brackets emits the pending token, an opening bracket
emits the pending token and starts a bracket token, a closing bracket ends
one.  Emitted tokens pass through `trimSpaceASCII`. -/
def tokAux : List Char → List String → List Char → Bool → List String
  | [], toks, buf, _ =>
    if buf.isEmpty then toks else toks ++ [(trimSpaceASCII buf).asString]
  | c :: cs, toks, buf, inB =>
    if c.toNat ≤ 32 then
      tokAux cs toks (if inB then buf ++ [c] else buf) inB
    else if c == '.' then
      if inB then tokAux cs toks (buf ++ [c]) inB
      else if buf.isEmpty then tokAux cs toks buf inB
      else tokAux cs (toks ++ [(trimSpaceASCII buf).asString]) [] inB
    else if c == '[' then
      tokAux cs (if buf.isEmpty then toks else toks ++ [(trimSpaceASCII buf).asString]) [c] true
    else if c == ']' then
      if inB then tokAux cs (toks ++ [(trimSpaceASCII (buf ++ [c])).asString]) [] false
      else tokAux cs toks (buf ++ [c]) inB
    else
      tokAux cs toks (buf ++ [c]) inB

/-- The `tokenizePath` of the optimised implementation. -/
def tokenizePath (path : String) : List String :=
  tokAux path.toList [] [] false

/-- Go `strings.HasPrefix(t, "[")`. -/
def hasBracketStart (t : String) : Bool :=
  match t.toList with
  | c :: _ => c == '['
  | [] => false

/-- Go `strings.HasSuffix(t, "]")`. -/
def hasBracketEnd (t : String) : Bool :=
  match t.toList.getLast? with
  | some c => c == ']'
  | none => false

/-- The bracket test of the walk in `For`. -/
def bracketShaped (t : String) : Bool :=
  hasBracketStart t && hasBracketEnd t

/-- Go `token[1 : len(token)-1]`, the text between the brackets. -/
def bracketInner (t : String) : String :=
  ((t.toList.drop 1).dropLast).asString

/-- One iteration of the walk loop in `For`: a bracket-shaped token is
trimmed and parsed with `strconv.Atoi` and indexes the current value (a
parse failure returns the absent answer, modelled as a nil step result);
any other token is a map key. -/
def stepToken (current : GoVal) (token : String) : Except String GoVal :=
  if bracketShaped token then
    match goAtoi (goTrimSpace (bracketInner token)) with
    | some index => .ok (accessSlice current index)
    | none => .ok .vnull
  else
    accessMap current token

/-- The walk of `For` over an already tokenized path: each step that yields
nil returns the empty Answer at once; a panic propagates. -/
def forTokens : GoVal → List String → Except String Answer
  | current, [] => .ok ⟨current⟩
  | current, token :: rest =>
    match stepToken current token with
    | .error e => .error e
    | .ok next => if isVNull next then .ok ⟨.vnull⟩ else forTokens next rest

/-- The `For` entry point.  The source memoises `tokenizePath path` in a
`sync.Map`; since `tokenizePath` is pure, a cache hit returns exactly
`tokenizePath path`, so the cache is elided here. -/
def For (source : GoVal) (path : String) : Except String Answer :=
  forTokens source (tokenizePath path)

/-- The `Exists` method: `a.value != nil`. -/
def Answer.Exists (a : Answer) : Bool :=
  !(isVNull a.value)

/-- The `Int` method of the optimised implementation: signed families pass
through, unsigned families are accepted up to the signed maximum and
rejected above it, float families are converted with the unchecked Go
conversion `int64(f)`. -/
def Answer.Int (a : Answer) (d : ℤ) : ℤ × Bool :=
  match a.value with
  | .vint n | .vint8 n | .vint16 n | .vint32 n | .vint64 n => (n, true)
  | .vuint n | .vuint8 n | .vuint16 n | .vuint32 n | .vuint64 n =>
    if n ≤ 2 ^ 63 - 1 then ((n : ℤ), true) else (d, false)
  | .vfloat32 q | .vfloat64 q => (goFloatToInt64 q, true)
  | _ => (d, false)

/-- The `Slice` method of the optimised implementation: nil fails; an exact
`[]any` is returned as is; any other slice or array shape is copied
elementwise into a fresh `[]any`; all other shapes fail. -/
def Answer.Slice (a : Answer) (d : List GoVal) : List GoVal × Bool :=
  match a.value with
  | .vnull => (d, false)
  | .vslice s => (s, true)
  | .vsliceInt xs => (xs.map GoVal.vint, true)
  | .vsliceInt2 xs => (xs.map GoVal.vsliceInt, true)
  | _ => (d, false)

/-- Which branch of `Slice` runs for a given current value: `false` is the
type-assertion fast path that returns the stored slice itself, `true` is
the reflect branch that allocates a fresh `[]any` and copies into it. -/
def sliceCopies : GoVal → Bool
  | .vsliceInt _ => true
  | .vsliceInt2 _ => true
  | _ => false

/-- The `Map` method of the optimised implementation: nil fails; an exact
`map[string]any` is returned as is; any other map shape is copied into a
fresh `map[string]any`, skipping keys that are not strings; all other
shapes fail.  Iteration order of a Go map is unspecified; the copy is
modelled in source list order. -/
def Answer.Map (a : Answer) (d : List (String × GoVal)) :
    List (String × GoVal) × Bool :=
  match a.value with
  | .vnull => (d, false)
  | .vmapSI m => (m, true)
  | .vmapSS m => (m.map fun p => (p.1, GoVal.vstring p.2), true)
  | .vmapSInt m => (m.map fun p => (p.1, GoVal.vint p.2), true)
  | .vmapSB m => (m.map fun p => (p.1, GoVal.vbool p.2), true)
  | .vmapII m =>
    (m.filterMap fun p =>
      match p.1 with
      | .vstring s => some (s, p.2)
      | _ => none, true)
  | .vmapIntInt _ => ([], true)
  | _ => (d, false)

/-- Which branch of `Map` runs: `false` is the type-assertion fast path
returning the stored map itself, `true` the reflect copy. -/
def mapCopies : GoVal → Bool
  | .vmapSS _ => true
  | .vmapSInt _ => true
  | .vmapSB _ => true
  | .vmapII _ => true
  | .vmapIntInt _ => true
  | _ => false

/-- Logical view of one path token, as the walk in `For` interprets it:
bracket-shaped tokens whose trimmed inner text parses with `Atoi` are
indices, bracket-shaped tokens that do not parse are malformed, everything
else is a map key. -/
inductive Token where
  | key (s : String)
  | index (i : ℤ)
  | malformed

/-- Classification of a raw token string by the dispatch of `For`. -/
def classify (t : String) : Token :=
  if bracketShaped t then
    match goAtoi (goTrimSpace (bracketInner t)) with
    | some i => .index i
    | none => .malformed
  else .key t

/-- Modelled from the spec: the terminal value reached by consuming every
token of the sequence, or `none` when any step fails, panics or reaches
nil.  This is the reference walk of the invariant in the data-model
section: an Answer holds either the exact terminal of a complete walk or
is absent. -/
def walkTerminal : GoVal → List String → Option GoVal
  | current, [] => some current
  | current, token :: rest =>
    match stepToken current token with
    | .ok v => if isVNull v then none else walkTerminal v rest
    | .error _ => none

end Ask

namespace AskOrig

/-- The `Uint` method of the original `ask.go`: signed families succeed
only when non-negative; unsigned families pass through; float families
succeed only when non-negative, and a value above `float64(math.MaxUint64)`
(exactly 2^64) is clamped to `math.MaxUint64` before the conversion. -/
def Uint (a : Ask.Answer) (d : Nat) : Nat × Bool :=
  match a.value with
  | .vint n | .vint8 n | .vint16 n | .vint32 n | .vint64 n =>
    if 0 ≤ n then (n.toNat, true) else (d, false)
  | .vuint n | .vuint8 n | .vuint16 n | .vuint32 n | .vuint64 n => (n, true)
  | .vfloat32 q | .vfloat64 q =>
    if 0 ≤ q then
      (if 2 ^ 64 < q then 2 ^ 64 - 1 else goFloatToUint64 q, true)
    else (d, false)
  | _ => (d, false)

end AskOrig

/-! Helper lemmas. -/

/-- Characters that survive the whitespace dropping of the tokenizer
outside brackets. -/
def stripBlanks (l : List Char) : List Char :=
  l.filter fun c => decide (32 < c.toNat)

theorem truncQ_of_nonneg (q : ℚ) (h : 0 ≤ q) : truncQ q = ⌊q⌋ :=
  if_pos h

theorem truncQ_of_neg (q : ℚ) (h : ¬ 0 ≤ q) : truncQ q = ⌈q⌉ :=
  if_neg h

theorem accessSlice_of_neg (src : Ask.GoVal) (i : ℤ) (h : i < 0) :
    Ask.accessSlice src i = .vnull := by
  cases src <;> simp [Ask.accessSlice, not_le.mpr h]

theorem forTokens_step_null (cur : Ask.GoVal) (t : String) (ts : List String)
    (h : Ask.stepToken cur t = .ok .vnull) :
    Ask.forTokens cur (t :: ts) = .ok ⟨.vnull⟩ := by
  simp [Ask.forTokens, h, Ask.isVNull]

theorem forTokens_step_cont (cur v : Ask.GoVal) (t : String) (ts : List String)
    (h : Ask.stepToken cur t = .ok v) (hv : Ask.isVNull v = false) :
    Ask.forTokens cur (t :: ts) = Ask.forTokens v ts := by
  simp [Ask.forTokens, h, hv]

theorem forTokens_no_value_of_malformed :
    ∀ (ts : List String) (cur : Ask.GoVal) (a : Ask.Answer),
      (∃ t ∈ ts, Ask.bracketShaped t = true ∧
        goAtoi (goTrimSpace (Ask.bracketInner t)) = none) →
      Ask.forTokens cur ts = .ok a → a.value = .vnull := by
  intro ts
  induction ts with
  | nil =>
    intro cur a hex _
    rcases hex with ⟨t, ht, _⟩
    exact absurd ht (List.not_mem_nil t)
  | cons t ts ih =>
    intro cur a hex heq
    rcases hex with ⟨u, hu, hbad⟩
    cases hst : Ask.stepToken cur t with
    | error e =>
      simp only [Ask.forTokens, hst] at heq
      exact Except.noConfusion heq
    | ok v =>
      simp only [Ask.forTokens, hst] at heq
      by_cases hv : Ask.isVNull v = true
      · rw [if_pos hv] at heq
        cases heq
        rfl
      · rw [if_neg hv] at heq
        rcases List.mem_cons.mp hu with h | h
        · subst h
          have hstep : Ask.stepToken cur u = .ok .vnull := by
            simp [Ask.stepToken, hbad.1, hbad.2]
          rw [hstep] at hst
          cases hst
          exact absurd rfl hv
        · exact ih v a ⟨u, h, hbad⟩ heq

theorem forTokens_terminal :
    ∀ (ts : List String) (cur : Ask.GoVal) (a : Ask.Answer),
      Ask.forTokens cur ts = .ok a →
      a.value = .vnull ∨ Ask.walkTerminal cur ts = some a.value := by
  intro ts
  induction ts with
  | nil =>
    intro cur a heq
    rw [Ask.forTokens] at heq
    cases heq
    exact Or.inr rfl
  | cons t ts ih =>
    intro cur a heq
    cases hst : Ask.stepToken cur t with
    | error e =>
      simp only [Ask.forTokens, hst] at heq
      exact Except.noConfusion heq
    | ok v =>
      simp only [Ask.forTokens, hst] at heq
      by_cases hv : Ask.isVNull v = true
      · rw [if_pos hv] at heq
        cases heq
        exact Or.inl rfl
      · rw [if_neg hv] at heq
        rcases ih v a heq with h | h
        · exact Or.inl h
        · refine Or.inr ?_
          simp only [Ask.walkTerminal, hst, if_neg hv]
          exact h

theorem trimSpaceASCII_of_gt (l : List Char) (h : ∀ c ∈ l, 32 < c.toNat) :
    trimSpaceASCII l = l := by
  unfold trimSpaceASCII
  have h1 : l.dropWhile (fun c => c.toNat ≤ 32) = l := by
    cases l with
    | nil => rfl
    | cons c cs =>
      rw [List.dropWhile_cons, if_neg]
      simp only [decide_eq_true_eq, not_le]
      exact h c (List.mem_cons_self c cs)
  rw [h1]
  have h2 : l.reverse.dropWhile (fun c => c.toNat ≤ 32) = l.reverse := by
    cases hrev : l.reverse with
    | nil => rfl
    | cons c cs =>
      rw [List.dropWhile_cons, if_neg]
      simp only [decide_eq_true_eq, not_le]
      have hc : c ∈ l := by
        rw [← List.mem_reverse, hrev]
        exact List.mem_cons_self c cs
      exact h c hc
  rw [h2, List.reverse_reverse]

theorem tokAux_plain :
    ∀ (cs : List Char) (toks : List String) (buf : List Char),
      (∀ c ∈ cs, c ≠ '.' ∧ c ≠ '[' ∧ c ≠ ']') →
      (∀ c ∈ buf, 32 < c.toNat) →
      Ask.tokAux cs toks buf false =
        toks ++ (if (buf ++ stripBlanks cs).isEmpty then []
                 else [((buf ++ stripBlanks cs)).asString]) := by
  intro cs
  induction cs with
  | nil =>
    intro toks buf _ hbuf
    have hsb : stripBlanks ([] : List Char) = [] := rfl
    rw [Ask.tokAux, hsb, List.append_nil]
    cases hb : buf.isEmpty with
    | true => simp
    | false => simp [trimSpaceASCII_of_gt buf hbuf]
  | cons c cs ih =>
    intro toks buf hcs hbuf
    have hc := hcs c (List.mem_cons_self c cs)
    by_cases h32 : c.toNat ≤ 32
    · rw [Ask.tokAux, if_pos h32, if_neg Bool.false_ne_true]
      have hfc : stripBlanks (c :: cs) = stripBlanks cs := by
        simp [stripBlanks, List.filter_cons, not_lt.mpr h32]
      rw [hfc]
      exact ih toks buf (fun x hx => hcs x (List.mem_cons_of_mem c hx)) hbuf
    · have h32lt : 32 < c.toNat := not_le.mp h32
      rw [Ask.tokAux, if_neg h32,
        if_neg (by simpa using hc.1),
        if_neg (by simpa using hc.2.1),
        if_neg (by simpa using hc.2.2)]
      rw [ih toks (buf ++ [c])
        (fun x hx => hcs x (List.mem_cons_of_mem c hx))
        (by
          intro x hx
          rcases List.mem_append.mp hx with h | h
          · exact hbuf x h
          · rw [List.mem_singleton.mp h]
            exact h32lt)]
      have hfc : stripBlanks (c :: cs) = c :: stripBlanks cs := by
        simp [stripBlanks, List.filter_cons, h32lt]
      rw [hfc, List.append_assoc, List.singleton_append]

theorem hasBracketStart_cons (c : Char) (l : List Char) :
    Ask.hasBracketStart ((c :: l).asString) = (c == '[') :=
  rfl

theorem classify_of_not_bracket (t : String) (h : Ask.hasBracketStart t = false) :
    Ask.classify t = .key t := by
  unfold Ask.classify Ask.bracketShaped
  rw [h, Bool.false_and, if_neg Bool.false_ne_true]

theorem tokenizePath_plain_key (s : String)
    (hns : ∀ c ∈ s.toList, c ≠ '.' ∧ c ≠ '[' ∧ c ≠ ']')
    (hnb : ∃ c ∈ s.toList, 32 < c.toNat) :
    Ask.tokenizePath s = [(stripBlanks s.toList).asString] ∧
    Ask.classify ((stripBlanks s.toList).asString) =
      .key ((stripBlanks s.toList).asString) := by
  have hne : ¬ (stripBlanks s.toList).isEmpty = true := by
    rcases hnb with ⟨c, hcm, h32⟩
    intro hemp
    rw [List.isEmpty_iff] at hemp
    have hmem : c ∈ stripBlanks s.toList :=
      List.mem_filter.mpr ⟨hcm, by simp [h32]⟩
    rw [hemp] at hmem
    exact absurd hmem (List.not_mem_nil c)
  constructor
  · unfold Ask.tokenizePath
    rw [tokAux_plain s.toList [] [] hns (by intro c hcm; exact absurd hcm (List.not_mem_nil c))]
    rw [List.nil_append, List.nil_append, if_neg hne]
  · cases hsb : stripBlanks s.toList with
    | nil =>
      rw [hsb] at hne
      exact absurd rfl hne
    | cons c0 rest =>
      have hc0 : c0 ∈ s.toList := by
        have hmem : c0 ∈ stripBlanks s.toList := by
          rw [hsb]
          exact List.mem_cons_self c0 rest
        exact List.mem_of_mem_filter hmem
      exact classify_of_not_bracket _
        (by rw [hasBracketStart_cons]; exact beq_eq_false_iff_ne.mpr (hns c0 hc0).2.1)

/-! Claim theorems. -/

/-- C1: the claim states that the dynamic accessors never panic on any
shape, including maps with non-string key types, and that every `For` call
returns an Answer.  The optimised `accessMap` violates this: its reflect
fallback calls `MapIndex` with a string key, which panics on a concrete
map whose key type is not assignable from string.  This theorem evaluates
the code at the failing input `For(map[int]int{1: 2}, "a")`. -/
theorem claim_C1 :
    Ask.accessMap (.vmapIntInt [(1, 2)]) ("a") =
      .error ("reflect.Value.MapIndex: value of type string is not assignable to type int") ∧
    Ask.For (.vmapIntInt [(1, 2)]) ("a") =
      .error ("reflect.Value.MapIndex: value of type string is not assignable to type int") :=
  ⟨rfl, rfl⟩

/-- C2 counterexample: the claim states that every malformed bracket
(content not a non-negative base-10 integer literal, or an unterminated
bracket) makes the whole query resolve absent.  Two concrete inputs refute
it.  First, on the path `a[` the tokenizer emits the token `[`, which is
not bracket-shaped (no closing bracket), so the walk uses it as a map key;
on a source that has the key `[` the query resolves to a present value.
Second, `strconv.Atoi` accepts the sign-prefixed content `+5`, which is
not a digits-only literal, so `a[+5]` indexes element 5 and resolves to a
present value as well. -/
theorem claim_C2_cex :
    (Ask.For (.vmapSI [(("a"), .vmapSI [(("["), .vint 42)])]) ("a[") = .ok ⟨.vint 42⟩ ∧
      Ask.Answer.Exists ⟨.vint 42⟩ = true) ∧
    (Ask.For (.vmapSI [(("a"),
          .vslice [Ask.GoVal.vint 10, .vint 11, .vint 12, .vint 13, .vint 14, .vint 15])])
        ("a[+5]") = .ok ⟨.vint 15⟩ ∧
      Ask.Answer.Exists ⟨.vint 15⟩ = true) :=
  ⟨⟨rfl, rfl⟩, rfl, rfl⟩

/-- C2 (amended): a terminated bracket token whose trimmed content is
rejected by Atoi forces the whole query to resolve absent, for every
source, never a crash.  The original claim fails beyond that in two ways,
which this theorem documents on the model: Atoi accepts sign-prefixed
content, so `+5` is consumed as the index 5 (and can resolve to a present
value, see the counterexample) while `-1` is consumed as the index -1,
which the bounds check makes absent on every shape; and an unterminated
bracket is kept as part of a key token and resolved as a map key (see the
counterexample), not treated as a malformed index. -/
theorem claim_C2 :
    (∀ (src : Ask.GoVal) (path : String),
      (∃ t ∈ Ask.tokenizePath path, Ask.bracketShaped t = true ∧
        goAtoi (goTrimSpace (Ask.bracketInner t)) = none) →
      ∀ a : Ask.Answer, Ask.For src path = .ok a → a.value = .vnull) ∧
    (∀ (src : Ask.GoVal) (i : ℤ), i < 0 → Ask.accessSlice src i = .vnull) ∧
    goAtoi ("+5") = some 5 ∧
    goAtoi ("-1") = some (-1) := by
  refine ⟨?_, ?_, rfl, rfl⟩
  · intro src path hex a heq
    exact forTokens_no_value_of_malformed (Ask.tokenizePath path) src a hex heq
  · intro src i h
    exact accessSlice_of_neg src i h

theorem claim_C2_witness :
    (Ask.Answer.mk .vnull).value = .vnull :=
  claim_C2.1 (.vmapSI []) ("a[x]") (by decide) ⟨.vnull⟩ rfl

/-- C6: a walk that returns an Answer through `ok` either carries the nil
value (absent) or the exact terminal obtained by consuming every token
(`walkTerminal`); and a step that yields nil short-circuits: the result is
the absent Answer and is independent of all later tokens. -/
theorem claim_C6 :
    (∀ (src : Ask.GoVal) (ts : List String) (a : Ask.Answer),
      Ask.forTokens src ts = .ok a →
      a.value = .vnull ∨ Ask.walkTerminal src ts = some a.value) ∧
    (∀ (src : Ask.GoVal) (path : String) (a : Ask.Answer),
      Ask.For src path = .ok a →
      a.value = .vnull ∨ Ask.walkTerminal src (Ask.tokenizePath path) = some a.value) ∧
    (∀ (cur : Ask.GoVal) (t : String) (ts ts2 : List String),
      Ask.stepToken cur t = .ok .vnull →
      Ask.forTokens cur (t :: ts) = .ok ⟨.vnull⟩ ∧
      Ask.forTokens cur (t :: ts) = Ask.forTokens cur (t :: ts2)) := by
  refine ⟨?_, ?_, ?_⟩
  · intro src ts a heq
    exact forTokens_terminal ts src a heq
  · intro src path a heq
    exact forTokens_terminal (Ask.tokenizePath path) src a heq
  · intro cur t ts ts2 h
    have h1 := forTokens_step_null cur t ts h
    have h2 := forTokens_step_null cur t ts2 h
    exact ⟨h1, h1.trans h2.symm⟩

theorem claim_C6_witness :
    (Ask.Answer.mk (.vint 1)).value = .vnull ∨
      Ask.walkTerminal (.vmapSI [(("a"), .vint 1)]) [("a")] = some (.vint 1) :=
  claim_C6.1 (.vmapSI [(("a"), .vint 1)]) [("a")] ⟨.vint 1⟩ rfl

/-- C7: the tokenizer maps the three sample paths to the claimed token
sequences (whitespace outside brackets removed), and every dot-delimited
segment with no bracket characters and at least one non-blank character
yields exactly one token that the walk classifies as a map key, never an
index, even when the segment is all digits. -/
theorem claim_C7 :
    ((Ask.tokenizePath ("a[0].b[1].c")).map Ask.classify =
      [Ask.Token.key ("a"), .index 0, .key ("b"), .index 1, .key ("c")]) ∧
    Ask.tokenizePath ("") = [] ∧
    Ask.tokenizePath (" a[0] . b ") = Ask.tokenizePath ("a[0].b") ∧
    ((Ask.tokenizePath (" a[0] . b ")).map Ask.classify =
      [Ask.Token.key ("a"), .index 0, .key ("b")]) ∧
    (∀ s : String, (∀ c ∈ s.toList, c ≠ '.' ∧ c ≠ '[' ∧ c ≠ ']') →
      (∃ c ∈ s.toList, 32 < c.toNat) →
      Ask.tokenizePath s = [((stripBlanks s.toList)).asString] ∧
      Ask.classify (((stripBlanks s.toList)).asString) =
        .key (((stripBlanks s.toList)).asString)) := by
  refine ⟨rfl, rfl, ?_, rfl, tokenizePath_plain_key⟩
  have h1 : Ask.tokenizePath (" a[0] . b ") = [("a"), ("[0]"), ("b")] := rfl
  have h2 : Ask.tokenizePath ("a[0].b") = [("a"), ("[0]"), ("b")] := rfl
  rw [h1, h2]

theorem claim_C7_witness :
    Ask.tokenizePath ("123") = [("123")] ∧
    Ask.classify ("123") = .key ("123") :=
  claim_C7.2.2.2.2 ("123") (by decide) (by decide)

/-- C8: the empty path tokenizes to zero tokens, the zero-token walk is
the identity, so `For(root, "")` returns the root unchanged for every
root; and `Exists` is true exactly when the current value is not the nil
sentinel. -/
theorem claim_C8 :
    Ask.tokenizePath ("") = [] ∧
    (∀ root : Ask.GoVal, Ask.forTokens root [] = .ok ⟨root⟩) ∧
    (∀ root : Ask.GoVal, Ask.For root ("") = .ok ⟨root⟩) ∧
    (∀ a : Ask.Answer, Ask.Answer.Exists a = true ↔ a.value ≠ .vnull) := by
  refine ⟨rfl, fun _ => rfl, fun _ => rfl, ?_⟩
  intro a
  cases a with
  | mk v => cases v <;> simp [Ask.Answer.Exists, Ask.isVNull]

theorem claim_C8_witness :
    Ask.Answer.Exists ⟨.vint 3⟩ = true :=
  (claim_C8.2.2.2 ⟨.vint 3⟩).mpr (fun h => Ask.GoVal.noConfusion h)

/-- C10: on a current value that is exactly a `[]any`, `Slice` returns
that very sequence with true through the non-copying type-assertion
branch; symmetrically `Map` on an exact `map[string]any`; other concrete
container shapes go through the reflect branch that builds a fresh
generic container. -/
theorem claim_C10 :
    (∀ (xs d : List Ask.GoVal),
      Ask.Answer.Slice ⟨.vslice xs⟩ d = (xs, true) ∧
        Ask.sliceCopies (.vslice xs) = false) ∧
    (∀ (m d : List (String × Ask.GoVal)),
      Ask.Answer.Map ⟨.vmapSI m⟩ d = (m, true) ∧
        Ask.mapCopies (.vmapSI m) = false) ∧
    (∀ (xs : List ℤ) (d : List Ask.GoVal),
      Ask.Answer.Slice ⟨.vsliceInt xs⟩ d = (xs.map Ask.GoVal.vint, true) ∧
        Ask.sliceCopies (.vsliceInt xs) = true) ∧
    (∀ (m : List (String × ℤ)) (d : List (String × Ask.GoVal)),
      Ask.Answer.Map ⟨.vmapSInt m⟩ d = (m.map fun p => (p.1, Ask.GoVal.vint p.2), true) ∧
        Ask.mapCopies (.vmapSInt m) = true) :=
  ⟨fun _ _ => ⟨rfl, rfl⟩, fun _ _ => ⟨rfl, rfl⟩, fun _ _ => ⟨rfl, rfl⟩, fun _ _ => ⟨rfl, rfl⟩⟩

/-- C3: `Int` truncates every floating point current value whose
truncation is representable in int64 toward zero (in particular 100.9
gives (100, true) and -100.9 gives (-100, true)), and every
unsigned-family current value strictly above the signed maximum yields
(default, false). -/
theorem claim_C3 :
    (∀ (q : ℚ) (d : ℤ), -(2 ^ 63) ≤ truncQ q → truncQ q ≤ 2 ^ 63 - 1 →
      Ask.Answer.Int ⟨.vfloat64 q⟩ d = (truncQ q, true) ∧
      Ask.Answer.Int ⟨.vfloat32 q⟩ d = (truncQ q, true)) ∧
    (∀ d : ℤ, Ask.Answer.Int ⟨.vfloat64 (100.9 : ℚ)⟩ d = (100, true)) ∧
    (∀ d : ℤ, Ask.Answer.Int ⟨.vfloat64 (-100.9 : ℚ)⟩ d = (-100, true)) ∧
    (∀ (n : ℕ) (d : ℤ), 2 ^ 63 - 1 < n →
      Ask.Answer.Int ⟨.vuint n⟩ d = (d, false) ∧
      Ask.Answer.Int ⟨.vuint64 n⟩ d = (d, false)) := by
  have hgen : ∀ (q : ℚ) (d : ℤ), -(2 ^ 63) ≤ truncQ q → truncQ q ≤ 2 ^ 63 - 1 →
      Ask.Answer.Int ⟨.vfloat64 q⟩ d = (truncQ q, true) ∧
      Ask.Answer.Int ⟨.vfloat32 q⟩ d = (truncQ q, true) := by
    intro q d h1 h2
    constructor <;>
      · show (goFloatToInt64 q, true) = (truncQ q, true)
        unfold goFloatToInt64
        rw [if_neg (by omega), if_neg (by omega)]
  refine ⟨hgen, ?_, ?_, ?_⟩
  · intro d
    have ht : truncQ (100.9 : ℚ) = 100 := by
      rw [truncQ_of_nonneg _ (by norm_num)]
      rw [Int.floor_eq_iff]
      norm_num
    have h := (hgen (100.9 : ℚ) d (by rw [ht]; norm_num) (by rw [ht]; norm_num)).1
    rw [ht] at h
    exact h
  · intro d
    have ht : truncQ (-100.9 : ℚ) = -100 := by
      rw [truncQ_of_neg _ (by norm_num)]
      rw [Int.ceil_eq_iff]
      norm_num
    have h := (hgen (-100.9 : ℚ) d (by rw [ht]; norm_num) (by rw [ht]; norm_num)).1
    rw [ht] at h
    exact h
  · intro n d h
    constructor <;>
      · show (if n ≤ 2 ^ 63 - 1 then ((n : ℤ), true) else (d, false)) = (d, false)
        rw [if_neg (by omega)]

theorem claim_C3_witness :
    Ask.Answer.Int ⟨.vfloat64 (3 : ℚ)⟩ 0 = (truncQ (3 : ℚ), true) ∧
    Ask.Answer.Int ⟨.vuint (2 ^ 63)⟩ 5 = (5, false) :=
  ⟨(claim_C3.1 3 0 (by decide) (by decide)).1,
   (claim_C3.2.2.2 (2 ^ 63) 5 (by decide)).1⟩

/-- C4: `Uint` of the original source fails on every negative signed or
negative float current value, truncates every non-negative float with a
representable truncation toward zero, and clamps every float above the
unsigned maximum to `math.MaxUint64` with true instead of wrapping. -/
theorem claim_C4 :
    (∀ (n : ℤ) (d : ℕ), n < 0 →
      AskOrig.Uint ⟨.vint n⟩ d = (d, false) ∧
      AskOrig.Uint ⟨.vint8 n⟩ d = (d, false) ∧
      AskOrig.Uint ⟨.vint16 n⟩ d = (d, false) ∧
      AskOrig.Uint ⟨.vint32 n⟩ d = (d, false) ∧
      AskOrig.Uint ⟨.vint64 n⟩ d = (d, false)) ∧
    (∀ (q : ℚ) (d : ℕ), q < 0 →
      AskOrig.Uint ⟨.vfloat64 q⟩ d = (d, false) ∧
      AskOrig.Uint ⟨.vfloat32 q⟩ d = (d, false)) ∧
    (∀ (q : ℚ) (d : ℕ), 0 ≤ q → truncQ q ≤ 2 ^ 64 - 1 →
      AskOrig.Uint ⟨.vfloat64 q⟩ d = ((truncQ q).toNat, true)) ∧
    (∀ (q : ℚ) (d : ℕ), (2 ^ 64 - 1 : ℚ) < q →
      AskOrig.Uint ⟨.vfloat64 q⟩ d = (2 ^ 64 - 1, true)) := by
  refine ⟨?_, ?_, ?_, ?_⟩
  · intro n d h
    refine ⟨?_, ?_, ?_, ?_, ?_⟩ <;>
      · show (if 0 ≤ n then (n.toNat, true) else (d, false)) = (d, false)
        rw [if_neg (by omega)]
  · intro q d h
    constructor <;>
      · show (if 0 ≤ q then _ else (d, false)) = (d, false)
        rw [if_neg (not_le.mpr h)]
  · intro q d h0 hle
    have hfl : 0 ≤ truncQ q := by
      rw [truncQ_of_nonneg q h0]
      exact Int.floor_nonneg.mpr h0
    have hq : q < 2 ^ 64 := by
      have h1 : (⌊q⌋ : ℚ) ≤ ((2 : ℤ) ^ 64 - 1 : ℤ) := by
        rw [truncQ_of_nonneg q h0] at hle
        exact_mod_cast hle
      have h2 := Int.lt_floor_add_one q
      push_cast at h1
      linarith
    show (if 0 ≤ q then (if 2 ^ 64 < q then 2 ^ 64 - 1 else goFloatToUint64 q, true)
      else (d, false)) = ((truncQ q).toNat, true)
    rw [if_pos h0, if_neg (not_lt.mpr hq.le)]
    unfold goFloatToUint64
    rw [if_neg (by omega), if_neg (by omega)]
  · intro q d h
    have h0 : (0 : ℚ) ≤ q := le_trans (by norm_num) h.le
    show (if 0 ≤ q then (if 2 ^ 64 < q then 2 ^ 64 - 1 else goFloatToUint64 q, true)
      else (d, false)) = (2 ^ 64 - 1, true)
    rw [if_pos h0]
    by_cases hq : (2 ^ 64 : ℚ) < q
    · rw [if_pos hq]
    · rw [if_neg hq]
      have hfl : (2 ^ 64 - 1 : ℤ) ≤ ⌊q⌋ := by
        apply Int.le_floor.mpr
        push_cast
        have hnum : (18446744073709551615 : ℚ) = 2 ^ 64 - 1 := by norm_num
        rw [hnum]
        exact h.le
      have hfu : ⌊q⌋ ≤ 2 ^ 64 := by
        have hcast : (2 ^ 64 : ℚ) = ((2 ^ 64 : ℤ) : ℚ) := by push_cast; ring
        have := Int.floor_mono (not_lt.mp hq)
        rw [hcast, Int.floor_intCast] at this
        exact this
      unfold goFloatToUint64
      rw [truncQ_of_nonneg q h0]
      rw [if_neg (by omega)]
      by_cases hc : (2 ^ 64 - 1 : ℤ) < ⌊q⌋
      · rw [if_pos hc]
      · rw [if_neg hc]
        have heq : ⌊q⌋ = 2 ^ 64 - 1 := by omega
        rw [heq]
        constructor

theorem claim_C4_witness :
    AskOrig.Uint ⟨.vint (-5)⟩ 7 = (7, false) :=
  (claim_C4.1 (-5) 7 (by decide)).1

/-- C5: concrete containers with non-generic element types resolve through
the generic fallback exactly as fast-path shapes do: the nested path
`list[1][2]` on a two-dimensional integer grid reaches row 1, column 2 for
every grid in which those indices are in bounds, and keyed lookup on
concrete non-generic maps returns the stored value for every present
key. -/
theorem claim_C5 :
    (∀ (g : List (List ℤ)) (h1 : 1 < g.length) (h2 : 2 < (g.get ⟨1, h1⟩).length),
      Ask.For (.vmapSI [(("list"), .vsliceInt2 g)]) ("list[1][2]") =
        .ok ⟨.vint ((g.get ⟨1, h1⟩).get ⟨2, h2⟩)⟩) ∧
    (∀ (m : List (String × String)) (k v : String), m.lookup k = some v →
      Ask.accessMap (.vmapSS m) k = .ok (.vstring v)) ∧
    (∀ (m : List (String × Bool)) (k : String) (b : Bool), m.lookup k = some b →
      Ask.accessMap (.vmapSB m) k = .ok (.vbool b)) := by
  refine ⟨?_, ?_, ?_⟩
  · intro g h1 h2
    have e0 : Ask.tokenizePath ("list[1][2]") = [("list"), ("[1]"), ("[2]")] := rfl
    unfold Ask.For
    rw [e0]
    have s1 : Ask.stepToken (.vmapSI [(("list"), .vsliceInt2 g)]) ("list") =
        .ok (.vsliceInt2 g) := rfl
    rw [forTokens_step_cont _ _ _ _ s1 rfl]
    have e2 : Ask.accessSlice (.vsliceInt2 g) 1 = .vsliceInt (g.get ⟨1, h1⟩) := by
      simp only [Ask.accessSlice]
      rw [if_pos (by norm_num : (0 : ℤ) ≤ 1)]
      rw [show ((1 : ℤ).toNat) = 1 from rfl]
      rw [List.getElem?_eq_getElem h1]
      rfl
    have s2 : Ask.stepToken (.vsliceInt2 g) ("[1]") =
        .ok (Ask.accessSlice (.vsliceInt2 g) 1) := rfl
    rw [forTokens_step_cont _ _ _ _ (s2.trans (congrArg Except.ok e2)) rfl]
    have e3 : Ask.accessSlice (.vsliceInt (g.get ⟨1, h1⟩)) 2 =
        .vint ((g.get ⟨1, h1⟩).get ⟨2, h2⟩) := by
      simp only [Ask.accessSlice]
      rw [if_pos (by norm_num : (0 : ℤ) ≤ 2)]
      rw [show ((2 : ℤ).toNat) = 2 from rfl]
      rw [List.getElem?_eq_getElem h2]
      rfl
    have s3 : Ask.stepToken (.vsliceInt (g.get ⟨1, h1⟩)) ("[2]") =
        .ok (Ask.accessSlice (.vsliceInt (g.get ⟨1, h1⟩)) 2) := rfl
    rw [forTokens_step_cont _ _ _ _ (s3.trans (congrArg Except.ok e3)) rfl]
    rfl
  · intro m k v h
    simp only [Ask.accessMap, h]
    rfl
  · intro m k b h
    simp only [Ask.accessMap, h]

theorem claim_C5_witness :
    Ask.For (.vmapSI [(("list"), .vsliceInt2 [[1, 2, 3], [4, 5, 6]])]) ("list[1][2]") =
      .ok ⟨.vint 6⟩ :=
  claim_C5.1 [[1, 2, 3], [4, 5, 6]] (by decide) (by decide)
